import Mathlib

/-!
# Verification of the dns-sniff-exporter protocol dissection core

Shallow embedding of the Rust sources (`src/bytes.rs`, `src/ethernet.rs`,
`src/ip.rs`, `src/tcp_udp.rs`, `src/packet.rs`, `src/stats.rs`) together
with proofs about the embedded definitions.

Conventions of the embedding:
* bytes are `Nat` values; theorems carry `< 256` bounds where needed;
* Rust's `u16::from_be_bytes([hi, lo])` and `((hi as u16) << 8) | lo`
  are written `hi * 256 + lo` (equal for `lo < 256`);
* slice indexing that is guarded by an explicit length check in the source
  is written with `List.take` / `List.drop` / `List.getD`;
* slice indexing that is *not* guarded (and hence can panic in Rust) is
  modelled through `rust_slice`, which returns `PResult.panicked` exactly
  when the Rust expression would panic;
* `u16` subtraction, which wraps in release builds, is modelled by
  `u16_wrapping_sub` (debug builds would panic on underflow instead).
-/

namespace DnsSniff

/-- Result of a Rust computation that may panic (e.g. out-of-bounds
slice indexing). `panicked` marks the program aborting. -/
inductive PResult (α : Type) where
  | panicked : PResult α
  | ok : α → PResult α
  deriving DecidableEq, Repr

/-- Rust's `&bytes[lo..hi]`: panics unless `lo ≤ hi ≤ bytes.len()`. -/
def rust_slice (bs : List Nat) (lo hi : Nat) : PResult (List Nat) :=
  if lo ≤ hi ∧ hi ≤ bs.length then
    .ok ((bs.drop lo).take (hi - lo))
  else
    .panicked

/-- Big-endian 16-bit read at offset `i`; used only where the source has
already checked that both bytes exist. -/
def be16 (bs : List Nat) (i : Nat) : Nat :=
  bs.getD i 0 * 256 + bs.getD (i + 1) 0

/-! ## Byte extraction layer (`src/bytes.rs`)

`TryFromBytes::try_from_bytes` for the three address types.  Each Rust
implementation evaluates `bytes[0..w]` *before* `try_into().ok()?`; the
slice expression panics when the input is shorter than `w`, and the
`try_into` of a slice of length exactly `w` into `[u8; w]` never fails,
so the `None` path of the `Option` is dead code. -/

/-- IPv4 address: 4 octets. -/
structure Ipv4Addr where
  octets : List Nat
  deriving DecidableEq, Repr

/-- IPv6 address: 16 octets. -/
structure Ipv6Addr where
  octets : List Nat
  deriving DecidableEq, Repr

/-- MAC-48 address: 6 octets. -/
structure MacAddr6 where
  octets : List Nat
  deriving DecidableEq, Repr

/-- `impl TryFromBytes for Ipv4Addr` (src/bytes.rs lines 10-15). -/
def Ipv4Addr.try_from_bytes (bytes : List Nat) : PResult (Option Ipv4Addr) :=
  match rust_slice bytes 0 4 with
  | .panicked => .panicked
  | .ok bs => .ok (some ⟨bs⟩)

/-- `impl TryFromBytes for Ipv6Addr` (src/bytes.rs lines 17-22). -/
def Ipv6Addr.try_from_bytes (bytes : List Nat) : PResult (Option Ipv6Addr) :=
  match rust_slice bytes 0 16 with
  | .panicked => .panicked
  | .ok bs => .ok (some ⟨bs⟩)

/-- `impl TryFromBytes for MacAddr6` (src/bytes.rs lines 24-29). -/
def MacAddr6.try_from_bytes (bytes : List Nat) : PResult (Option MacAddr6) :=
  match rust_slice bytes 0 6 with
  | .panicked => .panicked
  | .ok bs => .ok (some ⟨bs⟩)

/-! ## Checksum engine (`src/ip.rs` lines 248-294) -/

/-- `ones_complement_add` (src/ip.rs lines 253-262): 16-bit addition with
end-around carry.  `overflowing_add` on `u16` is `(a + b) % 2^16` plus an
overflow flag. -/
def ones_complement_add (a b : Nat) : Nat :=
  let sum := (a + b) % 65536
  if a + b ≥ 65536 then sum + 1 else sum

/-- The loop of `internet_checksum` (src/ip.rs lines 270-286): consume
the byte iterator two bytes at a time, an odd trailing byte zero-padded
on the low byte, folding each big-endian word into the accumulator with
`ones_complement_add`. -/
def ics_loop (checksum : Nat) : List Nat → Nat
  | [] => checksum
  | [top] => ones_complement_add checksum (top * 256)
  | top :: bottom :: rest =>
      ics_loop (ones_complement_add checksum (top * 256 + bottom)) rest

/-- `internet_checksum` (src/ip.rs lines 269-294): fold all big-endian
16-bit words, then return the bitwise NOT of the folded sum, except that
a folded sum of `0xFFFF` is returned unchanged. -/
def internet_checksum (bytes : List Nat) : Nat :=
  let checksum := ics_loop 0 bytes
  if checksum = 65535 then 65535 else checksum ^^^ 65535

/-- The big-endian 16-bit words of a byte sequence, an odd trailing byte
zero-padded on the low byte.  Spec-side description of the word grouping
performed by the `internet_checksum` loop. -/
def ics_words : List Nat → List Nat
  | [] => []
  | [top] => [top * 256]
  | top :: bottom :: rest => (top * 256 + bottom) :: ics_words rest

/-- Spec-side restatement of the Internet checksum: build the word list,
fold it via `ones_complement_add` starting from 0, then complement with
the `0xFFFF` exception. -/
def internet_checksum_described (bytes : List Nat) : Nat :=
  let folded := (ics_words bytes).foldl ones_complement_add 0
  if folded = 65535 then 65535 else folded ^^^ 65535

/-! ### Arithmetic facts about the checksum engine -/

theorem xor_pred_two_pow : ∀ (n : Nat) (s : Nat), s < 2 ^ n → s ^^^ (2 ^ n - 1) = 2 ^ n - 1 - s := by
  intro n
  induction n with
  | zero =>
      intro s hs
      have : s = 0 := by omega
      subst this
      rfl
  | succ n ih =>
      intro s hs
      have hm : s ^^^ (2 ^ (n + 1) - 1)
          = 2 * ((s ^^^ (2 ^ (n + 1) - 1)) / 2) + (s ^^^ (2 ^ (n + 1) - 1)) % 2 :=
        (Nat.div_add_mod _ 2).symm
      have hpow : 2 ^ (n + 1) = 2 * 2 ^ n := by rw [Nat.pow_succ]; ring
      have hp : 1 ≤ 2 ^ n := Nat.one_le_two_pow
      have hhalf : (2 ^ (n + 1) - 1) / 2 = 2 ^ n - 1 := by omega
      rw [Nat.xor_div_two, Nat.xor_mod_two_eq, hhalf] at hm
      have hdiv : s / 2 < 2 ^ n := by omega
      rw [ih (s / 2) hdiv] at hm
      have h2 : 2 * (s / 2) + s % 2 = s := Nat.div_add_mod s 2
      have hmod : s % 2 < 2 := Nat.mod_lt _ (by omega)
      rw [hm]
      have hmod2 : (s + (2 ^ (n + 1) - 1)) % 2 = (s + 1) % 2 := by omega
      rw [hmod2]
      omega

/-- Complementing a 16-bit value is subtraction from `0xFFFF`. -/
theorem xor_ffff (s : Nat) (h : s < 65536) : s ^^^ 65535 = 65535 - s := by
  have h16 : (65536 : Nat) = 2 ^ 16 := by norm_num
  have := xor_pred_two_pow 16 s (by omega)
  norm_num at this
  omega

theorem ones_complement_add_lt (a b : Nat) (ha : a < 65536) (hb : b < 65536) :
    ones_complement_add a b < 65536 := by
  unfold ones_complement_add
  have := Nat.mod_lt (a + b) (show 0 < 65536 by norm_num)
  by_cases h : a + b ≥ 65536
  · simp only [h, if_pos]
    have : (a + b) % 65536 = a + b - 65536 := by omega
    omega
  · simp only [h, if_neg, not_false_iff]
    simpa using this

theorem ones_complement_add_mod (a b : Nat) (ha : a < 65536) (hb : b < 65536) :
    ones_complement_add a b % 65535 = (a + b) % 65535 := by
  unfold ones_complement_add
  by_cases h : a + b ≥ 65536
  · simp only [h, if_pos]
    have h1 : (a + b) % 65536 = a + b - 65536 := by omega
    rw [h1]
    have h2 : a + b - 65536 + 1 = a + b - 65535 := by omega
    rw [h2]
    have h3 : a + b - 65535 + 65535 = a + b := by omega
    conv_rhs => rw [← h3]
    rw [Nat.add_mod_right]
  · simp only [h, if_neg, not_false_iff]
    have : (a + b) % 65536 = a + b := by omega
    rw [this]

theorem ones_complement_add_pos (a b : Nat) (hpos : 1 ≤ a + b) :
    1 ≤ ones_complement_add a b := by
  unfold ones_complement_add
  by_cases h : a + b ≥ 65536
  · simp only [h, if_pos]
    omega
  · simp only [h, if_neg, not_false_iff]
    omega

theorem foldl_oca_lt (ws : List Nat) : ∀ c, c < 65536 → (∀ w ∈ ws, w < 65536) →
    ws.foldl ones_complement_add c < 65536 := by
  induction ws with
  | nil => intro c hc _; simpa using hc
  | cons w ws ih =>
      intro c hc hw
      simp only [List.foldl_cons]
      exact ih _ (ones_complement_add_lt c w hc (hw w (by simp)))
        (fun x hx => hw x (by simp [hx]))

theorem foldl_oca_mod (ws : List Nat) : ∀ c, c < 65536 → (∀ w ∈ ws, w < 65536) →
    ws.foldl ones_complement_add c % 65535 = (c + ws.sum) % 65535 := by
  induction ws with
  | nil => intro c _ _; simp
  | cons w ws ih =>
      intro c hc hw
      simp only [List.foldl_cons, List.sum_cons]
      rw [ih _ (ones_complement_add_lt c w hc (hw w (by simp)))
        (fun x hx => hw x (by simp [hx]))]
      rw [Nat.add_mod, ones_complement_add_mod c w hc (hw w (by simp)), ← Nat.add_mod]
      ring_nf

theorem foldl_oca_pos (ws : List Nat) : ∀ c, c < 65536 → (∀ w ∈ ws, w < 65536) →
    1 ≤ c + ws.sum → 1 ≤ ws.foldl ones_complement_add c := by
  induction ws with
  | nil => intro c _ _ h; simpa using h
  | cons w ws ih =>
      intro c hc hw hpos
      simp only [List.foldl_cons]
      simp only [List.sum_cons] at hpos
      have hwlt := hw w (by simp)
      have hrest : ∀ x ∈ ws, x < 65536 := fun x hx => hw x (by simp [hx])
      have hacc := ones_complement_add_lt c w hc hwlt
      by_cases h1 : 1 ≤ c + w
      · have : 1 ≤ ones_complement_add c w := ones_complement_add_pos c w h1
        exact ih _ hacc hrest (by omega)
      · have hc0 : c = 0 ∧ w = 0 := by omega
        have : ones_complement_add c w = 0 := by
          rw [hc0.1, hc0.2]; rfl
        rw [this]
        exact ih _ (by norm_num) hrest (by omega)

theorem ics_loop_eq_foldl (bs : List Nat) : ∀ c,
    ics_loop c bs = (ics_words bs).foldl ones_complement_add c := by
  induction bs using ics_words.induct with
  | case1 => intro c; rfl
  | case2 t => intro c; rfl
  | case3 t b rest ih =>
      intro c
      simp only [ics_loop, ics_words, List.foldl_cons]
      exact ih _

theorem ics_words_lt (bs : List Nat) (hb : ∀ x ∈ bs, x < 256) :
    ∀ w ∈ ics_words bs, w < 65536 := by
  induction bs using ics_words.induct with
  | case1 => simp [ics_words]
  | case2 t =>
      simp only [ics_words, List.mem_singleton]
      intro w hw
      have := hb t (by simp)
      omega
  | case3 t b rest ih =>
      simp only [ics_words, List.mem_cons]
      intro w hw
      rcases hw with h | h
      · have h1 := hb t (by simp)
        have h2 := hb b (by simp)
        omega
      · exact ih (fun x hx => hb x (by simp [hx])) w h

theorem ics_words_append_even (bs : List Nat) : ∀ cs, bs.length % 2 = 0 →
    ics_words (bs ++ cs) = ics_words bs ++ ics_words cs := by
  induction bs using ics_words.induct with
  | case1 => intro cs _; simp [ics_words]
  | case2 t => intro cs h; simp at h
  | case3 t b rest ih =>
      intro cs h
      simp only [List.length_cons] at h
      simp only [List.cons_append, ics_words, List.cons.injEq, true_and]
      exact ih cs (by omega)

/-- Claim C3: for every byte sequence, `internet_checksum` equals the
described algorithm: fold the big-endian 16-bit words (odd trailing byte
zero-padded on the low byte) via `ones_complement_add` starting from 0,
then return the bitwise NOT of the folded sum, except that a folded sum
of `0xFFFF` is returned unchanged. -/
theorem internet_checksum_eq_described (bytes : List Nat) :
    internet_checksum bytes = internet_checksum_described bytes := by
  unfold internet_checksum internet_checksum_described
  rw [ics_loop_eq_foldl]

/-- Core of the checksum-validation property: inserting the computed
checksum of a zero-field buffer back into the field makes the
ones-complement fold of the whole buffer come out as exactly `0xFFFF`. -/
theorem ics_loop_insert_checksum (p s : List Nat) (c : Nat)
    (hp : ∀ x ∈ p, x < 256) (hs : ∀ x ∈ s, x < 256)
    (heven : p.length % 2 = 0)
    (hc : c = internet_checksum (p ++ 0 :: 0 :: s)) :
    ics_loop 0 (p ++ c / 256 :: c % 256 :: s) = 65535 := by
  have hw0 : ics_words (p ++ 0 :: 0 :: s) = ics_words p ++ 0 :: ics_words s := by
    rw [ics_words_append_even p _ heven]
    simp [ics_words]
  have hwordsp := ics_words_lt p hp
  have hwordss := ics_words_lt s hs
  have hball0 : ∀ w ∈ ics_words p ++ 0 :: ics_words s, w < 65536 := by
    intro w hw
    rcases List.mem_append.mp hw with h | h
    · exact hwordsp w h
    · rcases List.mem_cons.mp h with h | h
      · omega
      · exact hwordss w h
  have hS0def : ics_loop 0 (p ++ 0 :: 0 :: s)
      = (ics_words p ++ 0 :: ics_words s).foldl ones_complement_add 0 := by
    rw [ics_loop_eq_foldl, hw0]
  have hS0lt : ics_loop 0 (p ++ 0 :: 0 :: s) < 65536 := by
    rw [hS0def]
    exact foldl_oca_lt _ 0 (by norm_num) hball0
  have hcval : c = if ics_loop 0 (p ++ 0 :: 0 :: s) = 65535 then 65535
      else ics_loop 0 (p ++ 0 :: 0 :: s) ^^^ 65535 := hc
  have hcprops : 1 ≤ c ∧ c ≤ 65535 ∧ (c + ics_loop 0 (p ++ 0 :: 0 :: s)) % 65535 = 0 := by
    by_cases hS0e : ics_loop 0 (p ++ 0 :: 0 :: s) = 65535
    · rw [hcval, if_pos hS0e, hS0e]
      norm_num
    · rw [hcval, if_neg hS0e, xor_ffff _ hS0lt]
      have : ics_loop 0 (p ++ 0 :: 0 :: s) ≤ 65534 := by omega
      refine ⟨by omega, by omega, ?_⟩
      have h65 : 65535 - ics_loop 0 (p ++ 0 :: 0 :: s)
          + ics_loop 0 (p ++ 0 :: 0 :: s) = 65535 := by omega
      rw [h65]
  obtain ⟨hc1, hcle, hcsum⟩ := hcprops
  have hwc : ics_words (p ++ c / 256 :: c % 256 :: s)
      = ics_words p ++ c :: ics_words s := by
    rw [ics_words_append_even p _ heven]
    have hcc : c / 256 * 256 + c % 256 = c := by omega
    simp [ics_words, hcc]
  have hballc : ∀ w ∈ ics_words p ++ c :: ics_words s, w < 65536 := by
    intro w hw
    rcases List.mem_append.mp hw with h | h
    · exact hwordsp w h
    · rcases List.mem_cons.mp h with h | h
      · omega
      · exact hwordss w h
  rw [ics_loop_eq_foldl, hwc]
  have hSlt : (ics_words p ++ c :: ics_words s).foldl ones_complement_add 0 < 65536 :=
    foldl_oca_lt _ 0 (by norm_num) hballc
  have hSmod : (ics_words p ++ c :: ics_words s).foldl ones_complement_add 0 % 65535
      = (0 + (ics_words p ++ c :: ics_words s).sum) % 65535 :=
    foldl_oca_mod _ 0 (by norm_num) hballc
  have hS0mod : ics_loop 0 (p ++ 0 :: 0 :: s) % 65535
      = (0 + (ics_words p ++ 0 :: ics_words s).sum) % 65535 := by
    rw [hS0def]
    exact foldl_oca_mod _ 0 (by norm_num) hball0
  have hsum1 : (ics_words p ++ c :: ics_words s).sum
      = (ics_words p).sum + (c + (ics_words s).sum) := by
    simp [List.sum_append]
  have hsum0 : (ics_words p ++ 0 :: ics_words s).sum
      = (ics_words p).sum + (ics_words s).sum := by
    simp [List.sum_append]
  have hSpos : 1 ≤ (ics_words p ++ c :: ics_words s).foldl ones_complement_add 0 := by
    apply foldl_oca_pos _ 0 (by norm_num) hballc
    omega
  omega

/-- Claim C4: for every buffer whose word-aligned 16-bit checksum field
equals the Internet checksum of the buffer with that field zeroed,
`internet_checksum` over the whole buffer yields exactly `0xFFFF`.  The
buffer is `p ++ field ++ s` with `p` of even length. -/
theorem internet_checksum_correct_field_folds_to_ffff (p s : List Nat) (c : Nat)
    (hp : ∀ x ∈ p, x < 256) (hs : ∀ x ∈ s, x < 256)
    (heven : p.length % 2 = 0)
    (hc : c = internet_checksum (p ++ 0 :: 0 :: s)) :
    internet_checksum (p ++ c / 256 :: c % 256 :: s) = 65535 := by
  have hloop := ics_loop_insert_checksum p s c hp hs heven hc
  simp [internet_checksum, hloop]

/-- Witness for claim C4 at the IPv4 header test vector of src/ip.rs:
the checksum field `0x36B5` is the checksum of the rest of the header,
and the checksum of the complete header is `0xFFFF`. -/
theorem internet_checksum_correct_field_folds_to_ffff_witness :
    internet_checksum [0x45, 0x00, 0x00, 0x5d, 0x36, 0x4d, 0x00, 0x00, 0x3c, 0x11,
      0x36, 0xb5, 0x80, 0x82, 0x04, 0x03, 0x80, 0x82, 0x0c, 0x87] = 65535 :=
  internet_checksum_correct_field_folds_to_ffff
    [0x45, 0x00, 0x00, 0x5d, 0x36, 0x4d, 0x00, 0x00, 0x3c, 0x11]
    [0x80, 0x82, 0x04, 0x03, 0x80, 0x82, 0x0c, 0x87] 0x36b5
    (by decide) (by decide) (by decide) (by decide)

/-! ### Single-bit-flip detection -/

theorem xor_lt_256 (x d : Nat) (hx : x < 256) (hd : d < 256) : x ^^^ d < 256 := by
  have h : (256 : Nat) = 2 ^ 8 := by norm_num
  rw [h] at hx hd ⊢
  exact Nat.bitwise_lt hx hd

set_option maxRecDepth 10000 in
/-- Flipping bit `j` of a byte either adds or removes `2 ^ j`. -/
theorem xor_flip_cases : ∀ x < 256, ∀ j < 8,
    x ^^^ 2 ^ j = x + 2 ^ j ∨ x = (x ^^^ 2 ^ j) + 2 ^ j := by decide

/-- Replacing one byte of a byte sequence changes exactly one word of its
big-endian 16-bit word grouping, either in the high half or in the low
half of that word. -/
theorem ics_words_replace (u : List Nat) : ∀ (v : List Nat) (x y : Nat),
    ∃ ws₁ ws₂ w w',
      ics_words (u ++ x :: v) = ws₁ ++ w :: ws₂ ∧
      ics_words (u ++ y :: v) = ws₁ ++ w' :: ws₂ ∧
      ((∃ r, w = x * 256 + r ∧ w' = y * 256 + r) ∨
       (∃ q, w = q * 256 + x ∧ w' = q * 256 + y)) := by
  induction u using ics_words.induct with
  | case1 =>
      intro v x y
      cases v with
      | nil =>
          refine ⟨[], [], x * 256, y * 256, ?_, ?_, .inl ⟨0, by ring, by ring⟩⟩
          · simp [ics_words]
          · simp [ics_words]
      | cons b rest =>
          refine ⟨[], ics_words rest, x * 256 + b, y * 256 + b, ?_, ?_, .inl ⟨b, rfl, rfl⟩⟩
          · simp [ics_words]
          · simp [ics_words]
  | case2 a =>
      intro v x y
      refine ⟨[], ics_words v, a * 256 + x, a * 256 + y, ?_, ?_, .inr ⟨a, rfl, rfl⟩⟩
      · simp [ics_words]
      · simp [ics_words]
  | case3 a b rest ih =>
      intro v x y
      obtain ⟨ws₁, ws₂, w, w', h1, h2, h3⟩ := ih v x y
      refine ⟨(a * 256 + b) :: ws₁, ws₂, w, w', ?_, ?_, h3⟩
      · simp [ics_words, h1]
      · simp [ics_words, h2]

/-- If the ones-complement fold of a buffer is exactly `0xFFFF`, then
after flipping any single bit of any byte of the buffer the Internet
checksum of the buffer no longer comes out as `0xFFFF`. -/
theorem checksum_flip_detected (u v : List Nat) (x j : Nat)
    (hu : ∀ a ∈ u, a < 256) (hv : ∀ a ∈ v, a < 256) (hx : x < 256) (hj : j < 8)
    (hfold : ics_loop 0 (u ++ x :: v) = 65535) :
    internet_checksum (u ++ (x ^^^ 2 ^ j) :: v) ≠ 65535 := by
  have hd : 2 ^ j < 256 := by
    calc 2 ^ j < 2 ^ 8 := Nat.pow_lt_pow_right (by norm_num) hj
    _ = 256 := by norm_num
  have hy : x ^^^ 2 ^ j < 256 := xor_lt_256 x (2 ^ j) hx hd
  obtain ⟨ws₁, ws₂, w, w', h1, h2, hcase⟩ := ics_words_replace u v x (x ^^^ 2 ^ j)
  have hballx : ∀ a ∈ u ++ x :: v, a < 256 := by
    intro a ha
    rcases List.mem_append.mp ha with h | h
    · exact hu a h
    · rcases List.mem_cons.mp h with h | h
      · omega
      · exact hv a h
  have hbally : ∀ a ∈ u ++ (x ^^^ 2 ^ j) :: v, a < 256 := by
    intro a ha
    rcases List.mem_append.mp ha with h | h
    · exact hu a h
    · rcases List.mem_cons.mp h with h | h
      · omega
      · exact hv a h
  have hwx := ics_words_lt _ hballx
  have hwy := ics_words_lt _ hbally
  rw [h1] at hwx
  rw [h2] at hwy
  have hfold' : (ws₁ ++ w :: ws₂).foldl ones_complement_add 0 = 65535 := by
    rw [← h1, ← ics_loop_eq_foldl]
    exact hfold
  have hmodx : (ws₁ ++ w :: ws₂).foldl ones_complement_add 0 % 65535
      = (0 + (ws₁ ++ w :: ws₂).sum) % 65535 :=
    foldl_oca_mod _ 0 (by norm_num) hwx
  have hmody : (ws₁ ++ w' :: ws₂).foldl ones_complement_add 0 % 65535
      = (0 + (ws₁ ++ w' :: ws₂).sum) % 65535 :=
    foldl_oca_mod _ 0 (by norm_num) hwy
  have hylt : (ws₁ ++ w' :: ws₂).foldl ones_complement_add 0 < 65536 :=
    foldl_oca_lt _ 0 (by norm_num) hwy
  have hsumx : (ws₁ ++ w :: ws₂).sum = ws₁.sum + (w + ws₂.sum) := by
    simp [List.sum_append]
  have hsumy : (ws₁ ++ w' :: ws₂).sum = ws₁.sum + (w' + ws₂.sum) := by
    simp [List.sum_append]
  -- the changed word differs from the old one by 2^j or by 256 * 2^j
  have hdelta : (w' = w + 2 ^ j ∨ w = w' + 2 ^ j)
      ∨ (w' = w + 256 * 2 ^ j ∨ w = w' + 256 * 2 ^ j) := by
    rcases hcase with ⟨r, hw, hw'⟩ | ⟨q, hw, hw'⟩
    · rcases xor_flip_cases x hx j hj with h | h
      · right; left; rw [hw, hw', h]; ring
      · right; right; rw [hw, hw']
        conv_lhs => rw [h]
        ring
    · rcases xor_flip_cases x hx j hj with h | h
      · left; left; rw [hw, hw', h]; ring
      · left; right; rw [hw, hw']
        conv_lhs => rw [h]
        ring
  have hdlow : 1 ≤ 2 ^ j := Nat.one_le_two_pow
  have hx0 : (0 + (ws₁ ++ w :: ws₂).sum) % 65535 = 0 := by
    rw [← hmodx, hfold']
  rw [hsumx] at hx0
  have hymod : (ws₁ ++ w' :: ws₂).foldl ones_complement_add 0 % 65535 ≠ 0 := by
    rw [hmody, hsumy]
    omega
  have hyne : (ws₁ ++ w' :: ws₂).foldl ones_complement_add 0 ≠ 65535
      ∧ (ws₁ ++ w' :: ws₂).foldl ones_complement_add 0 ≠ 0 := by
    constructor
    · intro h
      rw [h] at hymod
      norm_num at hymod
    · intro h
      rw [h] at hymod
      norm_num at hymod
  have hloopy : ics_loop 0 (u ++ (x ^^^ 2 ^ j) :: v)
      = (ws₁ ++ w' :: ws₂).foldl ones_complement_add 0 := by
    rw [ics_loop_eq_foldl, h2]
  unfold internet_checksum
  rw [hloopy]
  simp only [hyne.1, if_neg, ne_eq, not_false_iff]
  rw [xor_ffff _ hylt]
  omega

/-! ## Dissection result envelope (`src/packet.rs` lines 28-32)

The enum declared in src/packet.rs has the three variants `Success`,
`TooShort` and `IncorrectChecksum`.  The parsers in src/ip.rs also
construct a `WrongType` variant, and src/sampling.rs matches on it, so
the envelope actually used by the layer-3/4 parsers is modelled with
four variants; the three-variant declaration is kept alongside as
`PacketDissectionAsDeclared`. -/

/-- The dissection-result envelope as used by the IPv4, IPv6, TCP and
UDP parsers. -/
inductive PacketDissection (H : Type) where
  | Success (header : H) (rest : List Nat)
  | TooShort
  | WrongType
  | IncorrectChecksum
  deriving DecidableEq, Repr

/-- The dissection-result envelope exactly as declared in src/packet.rs
lines 28-32: three variants, without `WrongType`. -/
inductive PacketDissectionAsDeclared (H : Type) where
  | Success (header : H) (rest : List Nat)
  | TooShort
  | IncorrectChecksum
  deriving DecidableEq, Repr

/-! ## Layer-2 parsers (`src/ethernet.rs`) -/

/-- Ethernet header (src/ethernet.rs lines 9-13). -/
structure EthernetHeader where
  destination : MacAddr6
  source : MacAddr6
  ethertype : Nat
  deriving DecidableEq, Repr

/-- `EthernetHeader::try_take` (src/ethernet.rs lines 15-29).  All three
field reads are guarded by the length check, so the `unwrap` calls on
`MacAddr6::try_from_bytes(&bytes[0..6])`, `&bytes[6..12]` and the
`u16::from_be_bytes` conversion never panic; the function returns an
`Option`, not the dissection-result envelope. -/
def EthernetHeader.try_take (bytes : List Nat) : Option (EthernetHeader × List Nat) :=
  if bytes.length < 14 then
    none
  else
    let destination : MacAddr6 := ⟨bytes.take 6⟩
    let source : MacAddr6 := ⟨(bytes.drop 6).take 6⟩
    let ethertype := be16 bytes 12
    some (⟨destination, source, ethertype⟩, bytes.drop 14)

def ETHERTYPE_IPV4 : Nat := 0x0800
def ETHERTYPE_VLAN_TAG : Nat := 0x8100
def ETHERTYPE_IPV6 : Nat := 0x86DD

/-- The 3-bit 802.1Q priority code point (src/ethernet.rs lines 70-79). -/
inductive PriorityCodePoint where
  | BestEffort
  | Background
  | ExcellentEffort
  | CriticalApplication
  | Video
  | Voice
  | InternetworkControl
  | NetworkControl
  deriving DecidableEq, Repr

/-- The `FromToRepr`-derived `try_into().unwrap()` conversion.  The
argument is always a 3-bit value in the source, so the catch-all arm
(which in Rust would be an `unwrap` panic for values above 7) is
unreachable there. -/
def PriorityCodePoint.from_repr : Nat → PriorityCodePoint
  | 0 => .BestEffort
  | 1 => .Background
  | 2 => .ExcellentEffort
  | 3 => .CriticalApplication
  | 4 => .Video
  | 5 => .Voice
  | 6 => .InternetworkControl
  | _ => .NetworkControl

/-- VLAN tag header (src/ethernet.rs lines 39-44). -/
structure VlanTagHeader where
  priority_code_point : PriorityCodePoint
  drop_eligible_indicator : Bool
  vlan_id : Nat
  ethertype : Nat
  deriving DecidableEq, Repr

/-- `VlanTagHeader::try_take` (src/ethernet.rs lines 46-64).  The length
guard only requires 4 bytes, but the returned remainder is
`&bytes[14..]`, which panics whenever the input is 4 to 13 bytes long
and otherwise skips bytes 4..14 entirely. -/
def VlanTagHeader.try_take (bytes : List Nat) : PResult (Option (VlanTagHeader × List Nat)) :=
  if bytes.length < 4 then
    .ok none
  else
    let tci := be16 bytes 0
    let priority_code_point := PriorityCodePoint.from_repr ((tci &&& 0b1110000000000000) >>> 13)
    let drop_eligible_indicator := tci &&& 0b0001000000000000 != 0
    let vlan_id := tci &&& 0b0000111111111111
    let ethertype := be16 bytes 2
    match rust_slice bytes 14 bytes.length with
    | .panicked => .panicked
    | .ok rest =>
        .ok (some (⟨priority_code_point, drop_eligible_indicator, vlan_id, ethertype⟩, rest))

/-! ## Layer-3 parsers (`src/ip.rs`) -/

/-- IPv4 header (src/ip.rs lines 9-23). -/
structure Ipv4Header where
  version : Nat
  type_of_service : Nat
  total_length : Nat
  identification : Nat
  flags_and_fragment_offset : Nat
  time_to_live : Nat
  protocol : Nat
  header_checksum : Nat
  source_address : Ipv4Addr
  destination_address : Ipv4Addr
  options : List (Option (List Nat))
  deriving DecidableEq, Repr

/-- The option-word loop shared verbatim by `Ipv4Header::try_take`
(src/ip.rs lines 59-64) and `TcpHeader::try_take` (src/tcp_udp.rs lines
57-62): slot `i` of the 10-slot array is populated with the word at
`bytes[20+4i..24+4i]` while `20 + 4*i < limit`.  Since the loop
condition is monotone in `i`, the while loop fills exactly those
indices. -/
def option_words (bytes : List Nat) (limit : Nat) : List (Option (List Nat)) :=
  (List.range 10).map (fun i =>
    if 20 + i * 4 < limit then some ((bytes.drop (20 + i * 4)).take 4) else none)

/-- `Ipv4Header::try_take` (src/ip.rs lines 25-80). -/
def Ipv4Header.try_take (bytes : List Nat) : PacketDissection Ipv4Header :=
  if bytes.length < 20 then
    .TooShort
  else
    let version := (bytes.getD 0 0 &&& 0b11110000) >>> 4
    if version ≠ 4 then
      .WrongType
    else
      let header_length_w32 := bytes.getD 0 0 &&& 0b00001111
      let header_length_bytes := header_length_w32 * (32 / 8)
      if header_length_bytes < 20 then
        .TooShort
      else if bytes.length < header_length_bytes then
        .TooShort
      else if internet_checksum (bytes.take header_length_bytes) ≠ 65535 then
        .IncorrectChecksum
      else
        .Success
          { version := version
            type_of_service := bytes.getD 1 0
            total_length := be16 bytes 2
            identification := be16 bytes 4
            flags_and_fragment_offset := be16 bytes 6
            time_to_live := bytes.getD 8 0
            protocol := bytes.getD 9 0
            header_checksum := be16 bytes 10
            source_address := ⟨(bytes.drop 12).take 4⟩
            destination_address := ⟨(bytes.drop 16).take 4⟩
            options := option_words bytes header_length_bytes }
          (bytes.drop header_length_bytes)

/-- Rust release-mode wrapping `u16` subtraction, for `a < 65536` and
`b ≤ 65536` (a debug build would panic on underflow instead). -/
def u16_wrapping_sub (a b : Nat) : Nat := (a + 65536 - b) % 65536

/-- `Ipv4Header::to_pseudo_header` (src/ip.rs lines 86-106): 12 bytes,
source address, destination address, a zero byte, the protocol number,
and the big-endian layer-4 length `total_length - 20 - 4 * #options`
computed by one `u16` subtraction per populated option slot. -/
def Ipv4Header.to_pseudo_header (h : Ipv4Header) : List Nat :=
  let l4_length := h.options.foldl
    (fun acc option => if option.isSome then u16_wrapping_sub acc 4 else acc)
    (u16_wrapping_sub h.total_length 20)
  h.source_address.octets ++ h.destination_address.octets
    ++ [0, h.protocol] ++ [l4_length / 256, l4_length % 256]

/-- IPv6 header (src/ip.rs lines 129-138). -/
structure Ipv6Header where
  version : Nat
  traffic_class : Nat
  flow_label : Nat
  payload_length : Nat
  next_header : Nat
  hop_limit : Nat
  source_address : Ipv6Addr
  destination_address : Ipv6Addr
  deriving DecidableEq, Repr

/-- Big-endian 32-bit read at offset `i`, guarded by a length check in
the source. -/
def be32 (bs : List Nat) (i : Nat) : Nat :=
  bs.getD i 0 * 16777216 + bs.getD (i + 1) 0 * 65536 + bs.getD (i + 2) 0 * 256 + bs.getD (i + 3) 0

/-- `Ipv6Header::try_take` (src/ip.rs lines 140-175). -/
def Ipv6Header.try_take (bytes : List Nat) : PacketDissection Ipv6Header :=
  if bytes.length < 40 then
    .TooShort
  else
    let first_field := be32 bytes 0
    let version := (first_field &&& 0b11110000000000000000000000000000) >>> 28
    if version ≠ 6 then
      .WrongType
    else
      let traffic_class := (first_field &&& 0b00001111111100000000000000000000) >>> 20
      let flow_label := first_field &&& 0b00000000000011111111111111111111
      .Success
        { version := version
          traffic_class := traffic_class
          flow_label := flow_label
          payload_length := be16 bytes 4
          next_header := bytes.getD 6 0
          hop_limit := bytes.getD 7 0
          source_address := ⟨(bytes.drop 8).take 16⟩
          destination_address := ⟨(bytes.drop 24).take 16⟩ }
        (bytes.drop 40)

/-- `Ipv6Header::to_pseudo_header` (src/ip.rs lines 181-196): 40 bytes,
source, destination, big-endian 32-bit upper-layer length (computed by a
`u16` subtraction before widening to `u32`), three zero bytes, next
header. -/
def Ipv6Header.to_pseudo_header (h : Ipv6Header) : List Nat :=
  let l4_length := u16_wrapping_sub h.payload_length 40
  h.source_address.octets ++ h.destination_address.octets
    ++ [l4_length / 16777216, l4_length / 65536 % 256, l4_length / 256 % 256, l4_length % 256]
    ++ [0, 0, 0, h.next_header]

/-- The IP-header sum type (src/ip.rs lines 215-218). -/
inductive IpHeader where
  | V4 (h : Ipv4Header)
  | V6 (h : Ipv6Header)
  deriving DecidableEq, Repr

/-- `IpHeader::inner_protocol` (src/ip.rs lines 220-225). -/
def IpHeader.inner_protocol : IpHeader → Nat
  | .V4 h => h.protocol
  | .V6 h => h.next_header

/-- `IpHeader::to_pseudo_header` (src/ip.rs lines 227-239): a 40-byte
buffer (IPv4 pseudo-header zero-padded) with the significant length. -/
def IpHeader.to_pseudo_header : IpHeader → List Nat × Nat
  | .V4 h => (h.to_pseudo_header ++ List.replicate 28 0, 12)
  | .V6 h => (h.to_pseudo_header, 40)

def PROTO_TCP : Nat := 6
def PROTO_UDP : Nat := 17

/-! ## Layer-4 parsers (`src/tcp_udp.rs`) -/

/-- TCP header (src/tcp_udp.rs lines 11-23); the flags byte is kept as
its raw 8-bit value (`TcpFlags::from_bits` on a type covering all eight
bits never fails). -/
structure TcpHeader where
  source_port : Nat
  destination_port : Nat
  sequence_number : Nat
  acknowledgement_number : Nat
  flags : Nat
  window : Nat
  checksum : Nat
  urgent_pointer : Nat
  options : List (Option (List Nat))
  deriving DecidableEq, Repr

/-- `TcpHeader::try_take` (src/tcp_udp.rs lines 25-76). -/
def TcpHeader.try_take (bytes pseudo_header : List Nat) : PacketDissection TcpHeader :=
  if bytes.length < 20 then
    .TooShort
  else
    let data_offset_w32 := (bytes.getD 12 0 &&& 0b11110000) >>> 4
    let data_offset_bytes := data_offset_w32 * 4
    if data_offset_bytes < 20 then
      .TooShort
    else if bytes.length < data_offset_bytes then
      .TooShort
    else if internet_checksum (pseudo_header ++ bytes) ≠ 65535 then
      .IncorrectChecksum
    else
      .Success
        { source_port := be16 bytes 0
          destination_port := be16 bytes 2
          sequence_number := be32 bytes 4
          acknowledgement_number := be32 bytes 8
          flags := bytes.getD 13 0
          window := be16 bytes 14
          checksum := be16 bytes 16
          urgent_pointer := be16 bytes 18
          options := option_words bytes data_offset_bytes }
        (bytes.drop data_offset_bytes)

/-- UDP header (src/tcp_udp.rs lines 98-103). -/
structure UdpHeader where
  source_port : Nat
  destination_port : Nat
  length : Nat
  checksum : Nat
  deriving DecidableEq, Repr

/-- `UdpHeader::try_take` (src/tcp_udp.rs lines 105-130): requires 8
bytes, reads the four fields, validates the Internet checksum over
pseudo-header concatenated with the full datagram, and returns the
remainder past the 8-byte header. -/
def UdpHeader.try_take (bytes pseudo_header : List Nat) : PacketDissection UdpHeader :=
  if bytes.length < 8 then
    .TooShort
  else
    let source_port := be16 bytes 0
    let destination_port := be16 bytes 2
    let length := be16 bytes 4
    let checksum := be16 bytes 6
    if internet_checksum (pseudo_header ++ bytes) ≠ 65535 then
      .IncorrectChecksum
    else
      .Success ⟨source_port, destination_port, length, checksum⟩ (bytes.drop 8)

/-! ## Claims about the byte extraction layer and layer 2 -/

/-- Claim C1: evaluation of the byte extractors at the failing inputs.
On every input shorter than the required width the Rust code panics in
the unguarded slice expression `bytes[0..w]` instead of returning
`None`; on longer inputs exactly the first `w` bytes are used. -/
theorem try_from_bytes_short_input_panics :
    Ipv4Addr.try_from_bytes [0, 0, 0] = .panicked ∧
    Ipv6Addr.try_from_bytes (List.replicate 15 0) = .panicked ∧
    MacAddr6.try_from_bytes [1, 2, 3, 4, 5] = .panicked ∧
    Ipv4Addr.try_from_bytes [1, 2, 3, 4, 9, 9] = .ok (some ⟨[1, 2, 3, 4]⟩) ∧
    MacAddr6.try_from_bytes [1, 2, 3, 4, 5, 6, 7] = .ok (some ⟨[1, 2, 3, 4, 5, 6]⟩) := by
  decide

/-- Claim C2: evaluation of `VlanTagHeader::try_take` at the failing
inputs.  A 4-byte VLAN tag makes the function panic (the remainder
slice `&bytes[14..]` is out of bounds), and on an 18-byte input the
remainder is the suffix from offset 14, not the suffix from offset 4
where the data following the 4-byte tag begins. -/
theorem vlan_try_take_panics_or_skips :
    VlanTagHeader.try_take [0, 0, 8, 0] = .panicked ∧
    VlanTagHeader.try_take [0, 0, 8, 0, 1, 2, 3, 4, 5, 6, 7, 8, 9, 10, 11, 12, 13, 14]
      = .ok (some (⟨.BestEffort, false, 0, 0x0800⟩, [11, 12, 13, 14])) ∧
    [11, 12, 13, 14]
      ≠ List.drop 4 [0, 0, 8, 0, 1, 2, 3, 4, 5, 6, 7, 8, 9, 10, 11, 12, 13, 14] := by
  decide

/-- Claim C6: evaluation of the Ethernet parser, showing that it
returns its header inside an `Option`, not inside the shared
dissection-result envelope, and that the envelope as declared in
src/packet.rs has exactly the three variants Success, TooShort and
IncorrectChecksum (no `WrongType`). -/
theorem ethernet_returns_option_not_envelope :
    EthernetHeader.try_take [1, 2, 3, 4, 5, 6, 7, 8, 9, 10, 11, 12, 8, 0]
      = some (⟨⟨[1, 2, 3, 4, 5, 6]⟩, ⟨[7, 8, 9, 10, 11, 12]⟩, 0x0800⟩, []) ∧
    EthernetHeader.try_take [] = none ∧
    ∀ x : PacketDissectionAsDeclared Unit,
      (∃ h r, x = .Success h r) ∨ x = .TooShort ∨ x = .IncorrectChecksum := by
  refine ⟨by decide, by decide, ?_⟩
  intro x
  cases x with
  | Success h r => exact .inl ⟨h, r, rfl⟩
  | TooShort => exact .inr (.inl rfl)
  | IncorrectChecksum => exact .inr (.inr rfl)

/-! ## Claims about the IPv4 pseudo-header -/

/-- Number of populated option slots. -/
def populated_count (opts : List (Option (List Nat))) : Nat :=
  opts.countP (fun o => o.isSome)

theorem u16_wrapping_sub_exact (a b : Nat) (ha : a < 65536) (hb : b ≤ a) :
    u16_wrapping_sub a b = a - b := by
  unfold u16_wrapping_sub
  omega

theorem foldl_sub_options (opts : List (Option (List Nat))) : ∀ acc, acc < 65536 →
    4 * populated_count opts ≤ acc →
    opts.foldl (fun acc option => if option.isSome then u16_wrapping_sub acc 4 else acc) acc
      = acc - 4 * populated_count opts := by
  induction opts with
  | nil => intro acc _ _; simp [populated_count]
  | cons o rest ih =>
      intro acc hacc hle
      by_cases ho : o.isSome
      · have hcount : populated_count (o :: rest) = populated_count rest + 1 := by
          simp [populated_count, ho]
        rw [hcount] at hle
        have hstep : u16_wrapping_sub acc 4 = acc - 4 :=
          u16_wrapping_sub_exact acc 4 hacc (by omega)
        simp only [List.foldl_cons, ho, if_pos]
        rw [hstep, ih (acc - 4) (by omega) (by omega), hcount]
        omega
      · have hcount : populated_count (o :: rest) = populated_count rest := by
          simp [populated_count, ho]
        rw [hcount] at hle
        simp only [List.foldl_cons, ho, if_neg, Bool.false_eq_true, not_false_iff]
        rw [ih acc hacc hle, hcount]

/-- Claim C7 (amended): for every IPv4 header whose `total_length` is at
least `20 + 4 * populated options` (and a 16-bit value, as produced by
parsing), `to_pseudo_header` returns exactly 12 bytes: source address,
destination address, one zero byte, the protocol number, and the
big-endian 16-bit layer-4 length `total_length - 20 - 4 * populated
options`.  Without the lower bound on `total_length` the subtraction
wraps modulo 2^16. -/
theorem to_pseudo_header_layout (h : Ipv4Header)
    (hsrc : h.source_address.octets.length = 4)
    (hdst : h.destination_address.octets.length = 4)
    (htl : h.total_length < 65536)
    (hge : 20 + 4 * populated_count h.options ≤ h.total_length) :
    h.to_pseudo_header
      = h.source_address.octets ++ h.destination_address.octets
        ++ [0, h.protocol]
        ++ [(h.total_length - 20 - 4 * populated_count h.options) / 256,
            (h.total_length - 20 - 4 * populated_count h.options) % 256] ∧
    h.to_pseudo_header.length = 12 := by
  have h20 : u16_wrapping_sub h.total_length 20 = h.total_length - 20 :=
    u16_wrapping_sub_exact _ _ htl (by omega)
  have hfold : h.options.foldl
      (fun acc option => if option.isSome then u16_wrapping_sub acc 4 else acc)
      (u16_wrapping_sub h.total_length 20)
      = h.total_length - 20 - 4 * populated_count h.options := by
    rw [h20]
    exact foldl_sub_options h.options (h.total_length - 20) (by omega) (by omega)
  constructor
  · unfold Ipv4Header.to_pseudo_header
    rw [hfold]
  · unfold Ipv4Header.to_pseudo_header
    rw [hfold]
    simp [hsrc, hdst]

/-- Witness for the amended claim C7: the pseudo-header of the IPv4
header of the src/ip.rs test vector (total length 93, no options,
protocol 17) is its two addresses, a zero byte, 17, and the big-endian
layer-4 length 73. -/
theorem to_pseudo_header_layout_witness :
    Ipv4Header.to_pseudo_header
      { version := 4, type_of_service := 0, total_length := 93, identification := 0x364d,
        flags_and_fragment_offset := 0, time_to_live := 60, protocol := 17,
        header_checksum := 0x36b5, source_address := ⟨[128, 130, 4, 3]⟩,
        destination_address := ⟨[128, 130, 12, 135]⟩, options := List.replicate 10 none }
      = [128, 130, 4, 3, 128, 130, 12, 135, 0, 17, 0, 73] ∧
    (Ipv4Header.to_pseudo_header
      { version := 4, type_of_service := 0, total_length := 93, identification := 0x364d,
        flags_and_fragment_offset := 0, time_to_live := 60, protocol := 17,
        header_checksum := 0x36b5, source_address := ⟨[128, 130, 4, 3]⟩,
        destination_address := ⟨[128, 130, 12, 135]⟩, options := List.replicate 10 none }).length
      = 12 :=
  to_pseudo_header_layout
    { version := 4, type_of_service := 0, total_length := 93, identification := 0x364d,
      flags_and_fragment_offset := 0, time_to_live := 60, protocol := 17,
      header_checksum := 0x36b5, source_address := ⟨[128, 130, 4, 3]⟩,
      destination_address := ⟨[128, 130, 12, 135]⟩, options := List.replicate 10 none }
    (by decide) (by decide) (by decide) (by decide)

/-! ## Claim C5: IPv4/UDP checksum round trip -/

theorem bytes_lt_append {l1 l2 : List Nat} (h1 : ∀ a ∈ l1, a < 256)
    (h2 : ∀ a ∈ l2, a < 256) : ∀ a ∈ l1 ++ l2, a < 256 := by
  intro a ha
  rcases List.mem_append.mp ha with h | h
  · exact h1 a h
  · exact h2 a h

theorem bytes_lt_cons {x : Nat} {l : List Nat} (hx : x < 256)
    (h : ∀ a ∈ l, a < 256) : ∀ a ∈ x :: l, a < 256 := by
  intro a ha
  rcases List.mem_cons.mp ha with h' | h'
  · omega
  · exact h a h'

theorem foldl_sub_options_lt (opts : List (Option (List Nat))) : ∀ acc, acc < 65536 →
    opts.foldl (fun acc option => if option.isSome then u16_wrapping_sub acc 4 else acc) acc
      < 65536 := by
  induction opts with
  | nil => intro acc h; simpa using h
  | cons o rest ih =>
      intro acc h
      simp only [List.foldl_cons]
      by_cases ho : o.isSome
      · simp only [ho, if_pos]
        exact ih _ (Nat.mod_lt _ (by norm_num))
      · simp only [ho, if_neg, Bool.false_eq_true, not_false_iff]
        exact ih _ h

theorem pseudo_header_bytes_lt (h : Ipv4Header)
    (hsrcb : ∀ a ∈ h.source_address.octets, a < 256)
    (hdstb : ∀ a ∈ h.destination_address.octets, a < 256)
    (hproto : h.protocol < 256) :
    ∀ a ∈ h.to_pseudo_header, a < 256 := by
  have hL : h.options.foldl
      (fun acc option => if option.isSome then u16_wrapping_sub acc 4 else acc)
      (u16_wrapping_sub h.total_length 20) < 65536 :=
    foldl_sub_options_lt h.options _ (Nat.mod_lt _ (by norm_num))
  intro a ha
  simp only [Ipv4Header.to_pseudo_header, List.mem_append, List.mem_cons,
    List.mem_singleton, List.not_mem_nil, or_false] at ha
  rcases ha with ((h1 | h2) | (h3 | h4)) | (h5 | h6)
  · exact hsrcb a h1
  · exact hdstb a h2
  · omega
  · omega
  · omega
  · omega

theorem pseudo_header_length (h : Ipv4Header)
    (hsrc : h.source_address.octets.length = 4)
    (hdst : h.destination_address.octets.length = 4) :
    h.to_pseudo_header.length = 12 := by
  simp [Ipv4Header.to_pseudo_header, hsrc, hdst]

theorem internet_checksum_lt (bs : List Nat) (hb : ∀ a ∈ bs, a < 256) :
    internet_checksum bs < 65536 := by
  unfold internet_checksum
  rw [ics_loop_eq_foldl]
  have hf := foldl_oca_lt (ics_words bs) 0 (by norm_num) (ics_words_lt bs hb)
  by_cases he : (ics_words bs).foldl ones_complement_add 0 = 65535
  · simp [he]
  · simp only [he, if_neg, not_false_iff]
    rw [xor_ffff _ hf]
    omega

/-- The success branch of `UdpHeader::try_take`. -/
theorem udp_try_take_success (bytes pseudo_header : List Nat)
    (h8 : ¬bytes.length < 8)
    (hcs : internet_checksum (pseudo_header ++ bytes) = 65535) :
    UdpHeader.try_take bytes pseudo_header
      = .Success ⟨be16 bytes 0, be16 bytes 2, be16 bytes 4, be16 bytes 6⟩ (bytes.drop 8) := by
  unfold UdpHeader.try_take
  rw [if_neg h8]
  have : ¬internet_checksum (pseudo_header ++ bytes) ≠ 65535 := by simp [hcs]
  rw [if_neg this]

/-- The checksum-failure branch of `UdpHeader::try_take`. -/
theorem udp_try_take_incorrect (bytes pseudo_header : List Nat)
    (h8 : ¬bytes.length < 8)
    (hcs : internet_checksum (pseudo_header ++ bytes) ≠ 65535) :
    UdpHeader.try_take bytes pseudo_header = .IncorrectChecksum := by
  unfold UdpHeader.try_take
  rw [if_neg h8]
  rw [if_pos hcs]

/-- Claim C5: for every synthetic IPv4/UDP packet whose UDP checksum
field is the Internet checksum of the IPv4-derived pseudo-header
concatenated with the datagram (checksum field zeroed),
`UdpHeader::try_take` on the datagram and that pseudo-header returns
`Success` with the parsed ports, length, checksum and the payload as
remainder; and flipping any single bit of any payload byte makes it
return `IncorrectChecksum`. -/
theorem udp_try_take_roundtrip (h : Ipv4Header) (hdr6 payload : List Nat) (c : Nat)
    (hsrc : h.source_address.octets.length = 4)
    (hsrcb : ∀ a ∈ h.source_address.octets, a < 256)
    (hdstl : h.destination_address.octets.length = 4)
    (hdstb : ∀ a ∈ h.destination_address.octets, a < 256)
    (hproto : h.protocol < 256)
    (hhdr6l : hdr6.length = 6)
    (hhdr6b : ∀ a ∈ hdr6, a < 256)
    (hpayb : ∀ a ∈ payload, a < 256)
    (hc : c = internet_checksum (h.to_pseudo_header ++ (hdr6 ++ 0 :: 0 :: payload))) :
    UdpHeader.try_take (hdr6 ++ c / 256 :: c % 256 :: payload) h.to_pseudo_header
      = .Success ⟨be16 hdr6 0, be16 hdr6 2, be16 hdr6 4, c⟩ payload ∧
    ∀ p1 x p2 j, payload = p1 ++ x :: p2 → j < 8 →
      UdpHeader.try_take (hdr6 ++ c / 256 :: c % 256 :: (p1 ++ (x ^^^ 2 ^ j) :: p2))
        h.to_pseudo_header
      = .IncorrectChecksum := by
  have hphb := pseudo_header_bytes_lt h hsrcb hdstb hproto
  have hphl : h.to_pseudo_header.length = 12 := pseudo_header_length h hsrc hdstl
  have hclt : c < 65536 := by
    rw [hc]
    exact internet_checksum_lt _
      (bytes_lt_append hphb (bytes_lt_append hhdr6b
        (bytes_lt_cons (by norm_num) (bytes_lt_cons (by norm_num) hpayb))))
  have hchi : c / 256 < 256 := by omega
  have hclo : c % 256 < 256 := by omega
  have hpre : ∀ a ∈ h.to_pseudo_header ++ hdr6, a < 256 := bytes_lt_append hphb hhdr6b
  have heven : (h.to_pseudo_header ++ hdr6).length % 2 = 0 := by
    simp [List.length_append, hphl, hhdr6l]
  have hc' : c = internet_checksum ((h.to_pseudo_header ++ hdr6) ++ 0 :: 0 :: payload) := by
    rw [List.append_assoc]
    exact hc
  have hfold : ics_loop 0 ((h.to_pseudo_header ++ hdr6) ++ c / 256 :: c % 256 :: payload)
      = 65535 :=
    ics_loop_insert_checksum (h.to_pseudo_header ++ hdr6) payload c hpre hpayb heven hc'
  have hfold2 : ics_loop 0 (h.to_pseudo_header ++ (hdr6 ++ c / 256 :: c % 256 :: payload))
      = 65535 := by
    rw [← List.append_assoc]
    exact hfold
  have hcs : internet_checksum
      (h.to_pseudo_header ++ (hdr6 ++ c / 256 :: c % 256 :: payload)) = 65535 := by
    simp [internet_checksum, hfold2]
  constructor
  · have h8 : ¬(hdr6 ++ c / 256 :: c % 256 :: payload).length < 8 := by
      simp only [List.length_append, List.length_cons, hhdr6l]
      omega
    rw [udp_try_take_success _ _ h8 hcs]
    have hb0 : be16 (hdr6 ++ c / 256 :: c % 256 :: payload) 0 = be16 hdr6 0 := by
      unfold be16
      rw [List.getD_append _ _ 0 0 (by omega), List.getD_append _ _ 0 1 (by omega)]
    have hb2 : be16 (hdr6 ++ c / 256 :: c % 256 :: payload) 2 = be16 hdr6 2 := by
      unfold be16
      rw [List.getD_append _ _ 0 2 (by omega), List.getD_append _ _ 0 3 (by omega)]
    have hb4 : be16 (hdr6 ++ c / 256 :: c % 256 :: payload) 4 = be16 hdr6 4 := by
      unfold be16
      rw [List.getD_append _ _ 0 4 (by omega), List.getD_append _ _ 0 5 (by omega)]
    have hb6 : be16 (hdr6 ++ c / 256 :: c % 256 :: payload) 6 = c := by
      unfold be16
      rw [List.getD_append_right _ _ 0 6 (by omega), List.getD_append_right _ _ 0 7 (by omega),
        hhdr6l]
      norm_num
      omega
    have hdrop : (hdr6 ++ c / 256 :: c % 256 :: payload).drop 8 = payload := by
      have h8eq : (8 : Nat) = hdr6.length + 2 := by omega
      rw [h8eq, List.drop_append]
      rfl
    rw [hb0, hb2, hb4, hb6, hdrop]
  · intro p1 x p2 j hpay hj
    subst hpay
    have hx : x < 256 := hpayb x (by simp)
    have hp1 : ∀ a ∈ p1, a < 256 := fun a ha => hpayb a (by simp [ha])
    have hp2 : ∀ a ∈ p2, a < 256 := fun a ha => hpayb a (by simp [ha])
    have hub : ∀ a ∈ (h.to_pseudo_header ++ hdr6) ++ c / 256 :: c % 256 :: p1, a < 256 :=
      bytes_lt_append hpre (bytes_lt_cons hchi (bytes_lt_cons hclo hp1))
    have hfold' : ics_loop 0
        (((h.to_pseudo_header ++ hdr6) ++ c / 256 :: c % 256 :: p1) ++ x :: p2) = 65535 := by
      have heq : ((h.to_pseudo_header ++ hdr6) ++ c / 256 :: c % 256 :: p1) ++ x :: p2
          = (h.to_pseudo_header ++ hdr6) ++ c / 256 :: c % 256 :: (p1 ++ x :: p2) := by
        simp [List.append_assoc]
      rw [heq]
      exact hfold
    have hflip := checksum_flip_detected
      ((h.to_pseudo_header ++ hdr6) ++ c / 256 :: c % 256 :: p1) p2 x j hub hp2 hx hj hfold'
    have h8 : ¬(hdr6 ++ c / 256 :: c % 256 :: (p1 ++ (x ^^^ 2 ^ j) :: p2)).length < 8 := by
      simp only [List.length_append, List.length_cons, hhdr6l]
      omega
    apply udp_try_take_incorrect _ _ h8
    have harg : h.to_pseudo_header ++ (hdr6 ++ c / 256 :: c % 256 :: (p1 ++ (x ^^^ 2 ^ j) :: p2))
        = ((h.to_pseudo_header ++ hdr6) ++ c / 256 :: c % 256 :: p1) ++ (x ^^^ 2 ^ j) :: p2 := by
      simp [List.append_assoc]
    rw [harg]
    exact hflip

/-- Witness for claim C5: a concrete IPv4/UDP packet (source 10.0.0.1,
destination 10.0.0.2, ports 53, payload `[171, 205]`, correct checksum
`0x3FA0`) parses as Success, and flipping the lowest bit of the first
payload byte (171 becomes 170) yields IncorrectChecksum. -/
theorem udp_try_take_roundtrip_witness :
    UdpHeader.try_take [0, 53, 0, 53, 0, 10, 63, 160, 171, 205]
      [10, 0, 0, 1, 10, 0, 0, 2, 0, 17, 0, 10]
      = .Success ⟨53, 53, 10, 16288⟩ [171, 205] ∧
    UdpHeader.try_take [0, 53, 0, 53, 0, 10, 63, 160, 170, 205]
      [10, 0, 0, 1, 10, 0, 0, 2, 0, 17, 0, 10]
      = .IncorrectChecksum := by
  have hmain := udp_try_take_roundtrip
    { version := 4, type_of_service := 0, total_length := 30, identification := 0,
      flags_and_fragment_offset := 0, time_to_live := 64, protocol := 17,
      header_checksum := 0, source_address := ⟨[10, 0, 0, 1]⟩,
      destination_address := ⟨[10, 0, 0, 2]⟩, options := List.replicate 10 none }
    [0, 53, 0, 53, 0, 10] [171, 205] 16288
    (by decide) (by decide) (by decide) (by decide) (by decide) (by decide) (by decide)
    (by decide) (by decide)
  exact ⟨hmain.1, hmain.2 [] 171 [205] 0 rfl (by norm_num)⟩

/-- A 20-byte IPv4 buffer with `total_length = 0` and a correct header
checksum; `Ipv4Header::try_take` accepts it. -/
def c7_buffer : List Nat :=
  [0x45, 0, 0, 0, 0, 0, 0, 0, 0, 0, 0xBA, 0xFF, 0, 0, 0, 0, 0, 0, 0, 0]

/-- The header value parsed from `c7_buffer`. -/
def c7_header : Ipv4Header :=
  { version := 4, type_of_service := 0, total_length := 0, identification := 0,
    flags_and_fragment_offset := 0, time_to_live := 0, protocol := 0,
    header_checksum := 0xBAFF, source_address := ⟨[0, 0, 0, 0]⟩,
    destination_address := ⟨[0, 0, 0, 0]⟩, options := List.replicate 10 none }

/-- Counterexample to claim C7 as stated: a successfully parsed IPv4
header with `total_length = 0` has a pseudo-header whose layer-4 length
bytes encode the wrapped value 65516, which is not `total_length - 20 -
4 * populated options` (that difference is impossible over the
integers and truncates to 0 over the naturals). -/
theorem to_pseudo_header_underflow_counterexample :
    Ipv4Header.try_take c7_buffer = .Success c7_header [] ∧
    c7_header.total_length = 0 ∧
    c7_header.to_pseudo_header = [0, 0, 0, 0, 0, 0, 0, 0, 0, 0, 255, 236] ∧
    255 * 256 + 236
      ≠ c7_header.total_length - 20 - 4 * populated_count c7_header.options := by
  decide

/-! ## Statistics aggregator (`src/stats.rs`)

Source addresses and DNS record types only need decidable equality and
are modelled as numeric identifiers; timestamps likewise.  A DNS name is
its ordered list of labels, each label a raw byte list.  The Rust
`HashMap`s are modelled as association lists updated in place, mirroring
the `entry(..).or_insert(..)` pattern. -/

/-- Validity of a byte sequence as UTF-8, as checked by the Rust
standard library in `String::from_utf8`: ASCII passes through; lead
bytes `0xC2..0xDF`, `0xE0..0xEF`, `0xF0..0xF4` require 1, 2 or 3
continuation bytes in `0x80..0xBF`, with the narrowed second-byte ranges
for `0xE0`, `0xED`, `0xF0` and `0xF4` that exclude overlong encodings,
surrogates and values above `U+10FFFF`; everything else is invalid. -/
def utf8_valid : List Nat → Bool
  | [] => true
  | b :: rest =>
    if b < 0x80 then utf8_valid rest
    else if b < 0xC2 then false
    else if b < 0xE0 then
      match rest with
      | c1 :: rest2 => if 0x80 ≤ c1 ∧ c1 < 0xC0 then utf8_valid rest2 else false
      | [] => false
    else if b < 0xF0 then
      match rest with
      | c1 :: c2 :: rest2 =>
          if (if b = 0xE0 then 0xA0 ≤ c1 ∧ c1 < 0xC0
              else if b = 0xED then 0x80 ≤ c1 ∧ c1 < 0xA0
              else 0x80 ≤ c1 ∧ c1 < 0xC0)
             ∧ 0x80 ≤ c2 ∧ c2 < 0xC0
          then utf8_valid rest2 else false
      | _ => false
    else if b < 0xF5 then
      match rest with
      | c1 :: c2 :: c3 :: rest3 =>
          if (if b = 0xF0 then 0x90 ≤ c1 ∧ c1 < 0xC0
              else if b = 0xF4 then 0x80 ≤ c1 ∧ c1 < 0x90
              else 0x80 ≤ c1 ∧ c1 < 0xC0)
             ∧ (0x80 ≤ c2 ∧ c2 < 0xC0) ∧ (0x80 ≤ c3 ∧ c3 < 0xC0)
          then utf8_valid rest3 else false
      | _ => false
    else false

/-- Per-source statistics (src/stats.rs lines 9-12). -/
structure PerSourceStats where
  count : Nat
  type_to_count : List (Nat × Nat)
  deriving DecidableEq, Repr

/-- `PerSourceStats::new` (src/stats.rs lines 14-19). -/
def PerSourceStats.new : PerSourceStats := ⟨0, []⟩

/-- The aggregate root (src/stats.rs lines 24-28).  A top-level-domain
log entry is (timestamp, source, record type, label bytes). -/
structure DnsStats where
  total_count : Nat
  source_to_stats : List (Nat × PerSourceStats)
  top_level_domains : List (Nat × Nat × Nat × List Nat)
  deriving DecidableEq, Repr

/-- `DnsStats::new` (src/stats.rs lines 30-36). -/
def DnsStats.new : DnsStats := ⟨0, [], []⟩

/-- `type_to_count.entry(record_type).or_insert(0)` followed by the
increment (src/stats.rs lines 45-48). -/
def bump_type_count (m : List (Nat × Nat)) (record_type : Nat) : List (Nat × Nat) :=
  match m with
  | [] => [(record_type, 1)]
  | (k, v) :: rest =>
      if k = record_type then (k, v + 1) :: rest
      else (k, v) :: bump_type_count rest record_type

/-- The two per-source increments of `add_query` (src/stats.rs lines
44-48). -/
def PerSourceStats.record (ps : PerSourceStats) (record_type : Nat) : PerSourceStats :=
  ⟨ps.count + 1, bump_type_count ps.type_to_count record_type⟩

/-- `source_to_stats.entry(source).or_insert_with(PerSourceStats::new)`
followed by the per-source increments (src/stats.rs lines 41-48). -/
def bump_source_stats (m : List (Nat × PerSourceStats)) (source record_type : Nat) :
    List (Nat × PerSourceStats) :=
  match m with
  | [] => [(source, PerSourceStats.new.record record_type)]
  | (k, v) :: rest =>
      if k = source then (k, v.record record_type) :: rest
      else (k, v) :: bump_source_stats rest source record_type

/-- `DnsStats::add_query` (src/stats.rs lines 38-57): increment the
global counter and the per-source counters; when the name has exactly
one label and that label is valid UTF-8 (`String::from_utf8` returns
`Ok`), append the log entry. -/
def DnsStats.add_query (s : DnsStats) (timestamp source record_type : Nat)
    (name : List (List Nat)) : DnsStats :=
  { total_count := s.total_count + 1
    source_to_stats := bump_source_stats s.source_to_stats source record_type
    top_level_domains :=
      match name with
      | [label] =>
          if utf8_valid label then
            s.top_level_domains ++ [(timestamp, source, record_type, label)]
          else
            s.top_level_domains
      | _ => s.top_level_domains }

/-- Association-list lookup (the `HashMap` read used to observe the
per-(source, record type) counter). -/
def assoc_get {α : Type} : List (Nat × α) → Nat → Option α
  | [], _ => none
  | (k, v) :: rest, key => if k = key then some v else assoc_get rest key

/-- The per-(source, record type) counter of a `DnsStats` value, 0 when
absent. -/
def type_count (s : DnsStats) (source record_type : Nat) : Nat :=
  match assoc_get s.source_to_stats source with
  | none => 0
  | some ps =>
      match assoc_get ps.type_to_count record_type with
      | none => 0
      | some n => n

theorem assoc_get_bump_type (m : List (Nat × Nat)) (rt : Nat) :
    assoc_get (bump_type_count m rt) rt
      = some ((match assoc_get m rt with | none => 0 | some v => v) + 1) := by
  induction m with
  | nil => simp [bump_type_count, assoc_get]
  | cons kv rest ih =>
      obtain ⟨k, v⟩ := kv
      by_cases hk : k = rt
      · subst hk
        simp [bump_type_count, assoc_get]
      · simp [bump_type_count, assoc_get, hk, ih]

theorem assoc_get_bump_source (m : List (Nat × PerSourceStats)) (src rt : Nat) :
    assoc_get (bump_source_stats m src rt) src
      = some ((match assoc_get m src with
               | none => PerSourceStats.new
               | some ps => ps).record rt) := by
  induction m with
  | nil => simp [bump_source_stats, assoc_get]
  | cons kv rest ih =>
      obtain ⟨k, v⟩ := kv
      by_cases hk : k = src
      · subst hk
        simp [bump_source_stats, assoc_get]
      · simp [bump_source_stats, assoc_get, hk, ih]

theorem list_ne_append_singleton {α : Type} (l : List α) (e : α) : l ≠ l ++ [e] := by
  intro h
  have := congrArg List.length h
  simp at this

/-- Counterexample to claim C8 as stated: a query whose name consists of
exactly one label that is not valid UTF-8 (the byte `0xFF`) increments
the counters but appends nothing to the top-level-domain log, so a
one-label name does not always add a log entry. -/
theorem add_query_invalid_utf8_no_log_entry :
    ([[255]] : List (List Nat)).length = 1 ∧
    ((DnsStats.new).add_query 0 7 1 [[255]]).total_count = 1 ∧
    type_count ((DnsStats.new).add_query 0 7 1 [[255]]) 7 1 = 1 ∧
    ((DnsStats.new).add_query 0 7 1 [[255]]).top_level_domains = [] := by
  decide

/-- Claim C8 (amended): every `add_query` call increments the global
counter by 1 and the (source, record type) counter by 1, and appends
(timestamp, source, record type, label) to the top-level-domain log if
and only if the name consists of exactly one label *and* that label is
valid UTF-8; otherwise (more or fewer labels, or an invalid label) the
log is unchanged. -/
theorem add_query_effects (s : DnsStats) (timestamp source record_type : Nat)
    (name : List (List Nat)) :
    (s.add_query timestamp source record_type name).total_count = s.total_count + 1 ∧
    type_count (s.add_query timestamp source record_type name) source record_type
      = type_count s source record_type + 1 ∧
    ((s.add_query timestamp source record_type name).top_level_domains
        = s.top_level_domains ++ [(timestamp, source, record_type, name.headD [])]
      ↔ name.length = 1 ∧ utf8_valid (name.headD []) = true) ∧
    (¬(name.length = 1 ∧ utf8_valid (name.headD []) = true) →
      (s.add_query timestamp source record_type name).top_level_domains
        = s.top_level_domains) := by
  refine ⟨rfl, ?_, ?_, ?_⟩
  · unfold type_count DnsStats.add_query
    simp only
    rw [assoc_get_bump_source]
    cases hsrc : assoc_get s.source_to_stats source with
    | none =>
        simp only [PerSourceStats.record, PerSourceStats.new]
        rw [assoc_get_bump_type]
        simp [assoc_get]
    | some ps =>
        simp only [PerSourceStats.record]
        rw [assoc_get_bump_type]
  · cases name with
    | nil =>
        simp only [DnsStats.add_query, List.length_nil]
        constructor
        · intro h
          exact absurd h (list_ne_append_singleton _ _)
        · intro h
          omega
    | cons label rest =>
        cases rest with
        | nil =>
            simp only [DnsStats.add_query, List.headD_cons, List.length_cons,
              List.length_nil]
            by_cases hval : utf8_valid label = true
            · rw [if_pos hval]
              constructor
              · intro _
                exact ⟨trivial, hval⟩
              · intro _
                rfl
            · rw [if_neg hval]
              constructor
              · intro h
                exact absurd h (list_ne_append_singleton _ _)
              · intro h
                exact absurd h.2 hval
        | cons l2 rest2 =>
            simp only [DnsStats.add_query, List.length_cons]
            constructor
            · intro h
              exact absurd h (list_ne_append_singleton _ _)
            · intro h
              omega
  · cases name with
    | nil => intro _; rfl
    | cons label rest =>
        cases rest with
        | nil =>
            intro h
            simp only [List.length_cons, List.length_nil, List.headD_cons] at h
            have hval : ¬utf8_valid label = true := by
              intro hv
              exact h ⟨trivial, hv⟩
            simp only [DnsStats.add_query]
            rw [if_neg hval]
        | cons l2 rest2 => intro _; rfl

/-- Witness for the amended claim C8: a query for the one-label name
"net" (bytes `[110, 101, 116]`) from source 7 with record type 1 sets
both counters to 1 and appends the log entry, while a two-label name
leaves the log unchanged. -/
theorem add_query_effects_witness :
    ((DnsStats.new).add_query 0 7 1 [[110, 101, 116]]).total_count = 1 ∧
    type_count ((DnsStats.new).add_query 0 7 1 [[110, 101, 116]]) 7 1 = 1 ∧
    ((DnsStats.new).add_query 0 7 1 [[110, 101, 116]]).top_level_domains
      = [(0, 7, 1, [110, 101, 116])] ∧
    ((DnsStats.new).add_query 0 7 1 [[101, 120], [99, 111]]).top_level_domains = [] := by
  have h1 := add_query_effects DnsStats.new 0 7 1 [[110, 101, 116]]
  have h2 := add_query_effects DnsStats.new 0 7 1 [[101, 120], [99, 111]]
  refine ⟨h1.1, ?_, ?_, ?_⟩
  · rw [h1.2.1]
    decide
  · have hlog := h1.2.2.1.mpr ⟨rfl, by decide⟩
    simpa using hlog
  · exact h2.2.2.2 (by decide)

/-! ## Claim C10: the statistics invariant -/

/-- Sum of all per-type counters of one per-type map. -/
def sum_type_counts (m : List (Nat × Nat)) : Nat := (m.map (fun p => p.2)).sum

/-- Sum of the per-source `count` fields over all sources. -/
def sum_source_counts (m : List (Nat × PerSourceStats)) : Nat :=
  (m.map (fun p => p.2.count)).sum

/-- Sum of every per-(source, record type) counter. -/
def sum_all_type_counts (m : List (Nat × PerSourceStats)) : Nat :=
  (m.map (fun p => sum_type_counts p.2.type_to_count)).sum

/-- The invariant of the statistics aggregate. -/
def stats_invariant (s : DnsStats) : Prop :=
  s.total_count = sum_source_counts s.source_to_stats ∧
  s.total_count = sum_all_type_counts s.source_to_stats ∧
  s.top_level_domains.length ≤ s.total_count

theorem bump_type_count_sum (m : List (Nat × Nat)) (rt : Nat) :
    sum_type_counts (bump_type_count m rt) = sum_type_counts m + 1 := by
  induction m with
  | nil => simp [bump_type_count, sum_type_counts]
  | cons kv rest ih =>
      obtain ⟨k, v⟩ := kv
      by_cases hk : k = rt
      · subst hk
        simp [bump_type_count, sum_type_counts]
        omega
      · simp only [bump_type_count, hk, if_neg, not_false_iff, sum_type_counts,
          List.map_cons, List.sum_cons] at *
        omega

theorem bump_source_stats_count_sum (m : List (Nat × PerSourceStats)) (src rt : Nat) :
    sum_source_counts (bump_source_stats m src rt) = sum_source_counts m + 1 := by
  induction m with
  | nil => simp [bump_source_stats, sum_source_counts, PerSourceStats.record,
      PerSourceStats.new]
  | cons kv rest ih =>
      obtain ⟨k, v⟩ := kv
      by_cases hk : k = src
      · subst hk
        simp [bump_source_stats, sum_source_counts, PerSourceStats.record]
        omega
      · simp only [bump_source_stats, hk, if_neg, not_false_iff, sum_source_counts,
          List.map_cons, List.sum_cons] at *
        omega

theorem bump_source_stats_type_sum (m : List (Nat × PerSourceStats)) (src rt : Nat) :
    sum_all_type_counts (bump_source_stats m src rt) = sum_all_type_counts m + 1 := by
  induction m with
  | nil => simp [bump_source_stats, sum_all_type_counts, PerSourceStats.record,
      PerSourceStats.new, sum_type_counts, bump_type_count]
  | cons kv rest ih =>
      obtain ⟨k, v⟩ := kv
      by_cases hk : k = src
      · subst hk
        simp [bump_source_stats, sum_all_type_counts, PerSourceStats.record,
          bump_type_count_sum]
        omega
      · simp only [bump_source_stats, hk, if_neg, not_false_iff, sum_all_type_counts,
          List.map_cons, List.sum_cons] at *
        omega

theorem add_query_preserves_invariant (s : DnsStats) (timestamp source record_type : Nat)
    (name : List (List Nat)) (h : stats_invariant s) :
    stats_invariant (s.add_query timestamp source record_type name) := by
  obtain ⟨h1, h2, h3⟩ := h
  refine ⟨?_, ?_, ?_⟩
  · simp only [DnsStats.add_query]
    rw [bump_source_stats_count_sum]
    omega
  · simp only [DnsStats.add_query]
    rw [bump_source_stats_type_sum]
    omega
  · cases name with
    | nil =>
        show s.top_level_domains.length ≤ s.total_count + 1
        omega
    | cons label rest =>
        cases rest with
        | nil =>
            have hlog : (s.add_query timestamp source record_type [label]).top_level_domains
                = if utf8_valid label = true then
                    s.top_level_domains ++ [(timestamp, source, record_type, label)]
                  else s.top_level_domains := rfl
            show (s.add_query timestamp source record_type [label]).top_level_domains.length
              ≤ s.total_count + 1
            rw [hlog]
            by_cases hval : utf8_valid label = true
            · rw [if_pos hval]
              simp only [List.length_append, List.length_singleton]
              omega
            · rw [if_neg hval]
              omega
        | cons l2 rest2 =>
            show s.top_level_domains.length ≤ s.total_count + 1
            omega

/-- A sampling run: fold a list of (timestamp, source, record type,
name) queries into a fresh `DnsStats` via `add_query`, as the consumer
loop does. -/
def run_queries (qs : List (Nat × Nat × Nat × List (List Nat))) : DnsStats :=
  qs.foldl (fun s q => s.add_query q.1 q.2.1 q.2.2.1 q.2.2.2) DnsStats.new

theorem foldl_add_query_invariant (qs : List (Nat × Nat × Nat × List (List Nat))) :
    ∀ s, stats_invariant s →
      stats_invariant (qs.foldl (fun s q => s.add_query q.1 q.2.1 q.2.2.1 q.2.2.2) s) := by
  induction qs with
  | nil => intro s h; simpa using h
  | cons q rest ih =>
      intro s h
      simp only [List.foldl_cons]
      exact ih _ (add_query_preserves_invariant s q.1 q.2.1 q.2.2.1 q.2.2.2 h)

/-- Claim C10: for every `DnsStats` value reachable from `DnsStats::new`
by any sequence of `add_query` calls, `total_count` equals the sum of
the per-source counts, equals the sum of all per-(source, record type)
counts, and the length of the top-level-domain log is at most
`total_count`. -/
theorem run_queries_invariant (qs : List (Nat × Nat × Nat × List (List Nat))) :
    stats_invariant (run_queries qs) := by
  apply foldl_add_query_invariant
  exact ⟨rfl, rfl, by simp [DnsStats.new]⟩

end DnsSniff

